import Mathlib

/-!
Verification development for the stockanalysis repository.

The Python sources are shallowly embedded: strings are `String`/`List Char`,
pandas series of floats are lists of rationals (with an explicit IEEE-style
value type where the code relies on division by zero producing infinity),
dates are day numbers with `weekday d = d % 7` (0 = Monday), and the
external data source is an explicit parameter.
-/

namespace Py

/-- ASCII lower-casing of one character, the effect of Python `str.lower`
on the characters that the code's regexes can accept. -/
def lowC : Char → Char
  | 'A' => 'a' | 'B' => 'b' | 'C' => 'c' | 'D' => 'd' | 'E' => 'e' | 'F' => 'f'
  | 'G' => 'g' | 'H' => 'h' | 'I' => 'i' | 'J' => 'j' | 'K' => 'k' | 'L' => 'l'
  | 'M' => 'm' | 'N' => 'n' | 'O' => 'o' | 'P' => 'p' | 'Q' => 'q' | 'R' => 'r'
  | 'S' => 's' | 'T' => 't' | 'U' => 'u' | 'V' => 'v' | 'W' => 'w' | 'X' => 'x'
  | 'Y' => 'y' | 'Z' => 'z'
  | c => c

/-- ASCII upper-casing of one character (Python `str.upper`). -/
def upC : Char → Char
  | 'a' => 'A' | 'b' => 'B' | 'c' => 'C' | 'd' => 'D' | 'e' => 'E' | 'f' => 'F'
  | 'g' => 'G' | 'h' => 'H' | 'i' => 'I' | 'j' => 'J' | 'k' => 'K' | 'l' => 'L'
  | 'm' => 'M' | 'n' => 'N' | 'o' => 'O' | 'p' => 'P' | 'q' => 'Q' | 'r' => 'R'
  | 's' => 'S' | 't' => 'T' | 'u' => 'U' | 'v' => 'V' | 'w' => 'W' | 'x' => 'X'
  | 'y' => 'Y' | 'z' => 'Z'
  | c => c

/-- The regex character class `[0-9]`. -/
def isDig : Char → Bool
  | '0' => true | '1' => true | '2' => true | '3' => true | '4' => true
  | '5' => true | '6' => true | '7' => true | '8' => true | '9' => true
  | _ => false

/-- The regex character class `[A-Za-z]`. -/
def isAsciiAlpha : Char → Bool
  | 'A' => true | 'B' => true | 'C' => true | 'D' => true | 'E' => true
  | 'F' => true | 'G' => true | 'H' => true | 'I' => true | 'J' => true
  | 'K' => true | 'L' => true | 'M' => true | 'N' => true | 'O' => true
  | 'P' => true | 'Q' => true | 'R' => true | 'S' => true | 'T' => true
  | 'U' => true | 'V' => true | 'W' => true | 'X' => true | 'Y' => true
  | 'Z' => true
  | 'a' => true | 'b' => true | 'c' => true | 'd' => true | 'e' => true
  | 'f' => true | 'g' => true | 'h' => true | 'i' => true | 'j' => true
  | 'k' => true | 'l' => true | 'm' => true | 'n' => true | 'o' => true
  | 'p' => true | 'q' => true | 'r' => true | 's' => true | 't' => true
  | 'u' => true | 'v' => true | 'w' => true | 'x' => true | 'y' => true
  | 'z' => true
  | _ => false

/-- The regex character class `[A-Z]` (the caseable characters changed by
`lowC`), used only to organize proofs. -/
def isUpAZ : Char → Bool
  | 'A' => true | 'B' => true | 'C' => true | 'D' => true | 'E' => true
  | 'F' => true | 'G' => true | 'H' => true | 'I' => true | 'J' => true
  | 'K' => true | 'L' => true | 'M' => true | 'N' => true | 'O' => true
  | 'P' => true | 'Q' => true | 'R' => true | 'S' => true | 'T' => true
  | 'U' => true | 'V' => true | 'W' => true | 'X' => true | 'Y' => true
  | 'Z' => true
  | _ => false

/-- ASCII whitespace, the characters removed by Python `str.strip`. -/
def isWS : Char → Bool
  | ' ' => true | '\t' => true | '\n' => true | '\r' => true
  | '\x0b' => true | '\x0c' => true
  | _ => false

/-- Python `str.lower` over the character list of a string. -/
def lower (l : List Char) : List Char := l.map lowC

/-- Python `str.upper` over the character list of a string. -/
def upper (l : List Char) : List Char := l.map upC

/-- Python `str.strip`: drop leading and trailing whitespace. -/
def stripList (l : List Char) : List Char :=
  ((l.dropWhile isWS).reverse.dropWhile isWS).reverse

/-- Full match of `[0-9]{6}`. -/
def sixDigits : List Char → Bool
  | a :: b :: c :: d :: e :: f :: [] =>
      isDig a && isDig b && isDig c && isDig d && isDig e && isDig f
  | _ => false

/-- `re.match` of the open-ended pattern `^(sh|sz|bj)` (a prefix match). -/
def marketPrefixHead : List Char → Bool
  | a :: b :: _ =>
      (a == 's' && (b == 'h' || b == 'z')) || (a == 'b' && b == 'j')
  | _ => false

/-- Full match of the stock pattern `^(?:sh|sz|bj)?[0-9]{6}$`. -/
def stockPattern (l : List Char) : Bool :=
  sixDigits l ||
  (match l with
   | a :: b :: rest =>
       ((a == 's' && (b == 'h' || b == 'z')) || (a == 'b' && b == 'j')) && sixDigits rest
   | _ => false)

/-- Full match of the modern index pattern `^(000[0-9]{3}|399[0-9]{3})$`. -/
def idxPattern6 : List Char → Bool
  | a :: b :: c :: d :: e :: f :: [] =>
      ((a == '0' && b == '0' && c == '0') || (a == '3' && b == '9' && c == '9')) &&
        isDig d && isDig e && isDig f
  | _ => false

/-- Full match of the legacy index pattern `^[0-9][A-Za-z][0-9]{4}$`. -/
def legacyPattern : List Char → Bool
  | a :: b :: c :: d :: e :: f :: [] =>
      isDig a && isAsciiAlpha b && isDig c && isDig d && isDig e && isDig f
  | _ => false

/-- Full match of `^(000[0-9]{3}|399[0-9]{3}|[0-9][A-Za-z][0-9]{4})$`. -/
def indexPattern (l : List Char) : Bool := idxPattern6 l || legacyPattern l

/-- `re.sub` of `^(sh|sz|bj)` with the empty string: drop a market
prefix when the string starts with one. -/
def stripMarket (l : List Char) : List Char :=
  match l with
  | a :: b :: rest =>
      if (a == 's' && (b == 'h' || b == 'z')) || (a == 'b' && b == 'j') then rest
      else a :: b :: rest
  | l => l

end Py

namespace StockData

/-- The `index_map` dictionary of `stock_data.py`, as a lookup. -/
def index_map_get (l : List Char) : Option (List Char) :=
  if l = "1A0001".data then some "sh000001".data
  else if l = "000001".data then some "sh000001".data
  else if l = "399001".data then some "sz399001".data
  else if l = "399006".data then some "sz399006".data
  else if l = "000300".data then some "sh000300".data
  else if l = "000016".data then some "sh000016".data
  else if l = "399905".data then some "sz399905".data
  else none

/-- `is_valid_stock_code` from `stock_data.py`: the stock pattern tried on
the lower-cased code, or the index pattern tried on the upper-cased code. -/
def is_valid_stock_code (s : String) : Bool :=
  Py.stockPattern (Py.lower s.data) || Py.indexPattern (Py.upper s.data)

/-- Body of `normalize_stock_code` from `stock_data.py`, over character
lists.  `dict.get(k, default)` with an eagerly evaluated default becomes
the nested `match`. -/
def normalize_list (s : List Char) : List Char :=
  let code := Py.stripList s
  if Py.legacyPattern (Py.upper code) || Py.idxPattern6 code then
    match index_map_get (Py.upper code) with
    | some v => v
    | none =>
        match index_map_get code with
        | some v => v
        | none => code
  else if Py.marketPrefixHead (Py.lower code) then Py.lower code
  else code

/-- `normalize_stock_code` from `stock_data.py`. -/
def normalize_stock_code (s : String) : String :=
  String.mk (normalize_list s.data)

/-- The `index_names` dictionary of `get_stock_name` in `stock_data.py`. -/
def index_names_get (l : List Char) : Option String :=
  if l = "sh000001".data then some "上证指数"
  else if l = "000001".data then some "上证指数"
  else if l = "1A0001".data then some "上证指数"
  else if l = "sz399001".data then some "深证成指"
  else if l = "399001".data then some "深证成指"
  else if l = "sz399006".data then some "创业板指"
  else if l = "399006".data then some "创业板指"
  else if l = "sh000300".data then some "沪深300"
  else if l = "000300".data then some "沪深300"
  else if l = "sh000016".data then some "上证50"
  else if l = "000016".data then some "上证50"
  else if l = "sz399905".data then some "中证500"
  else if l = "399905".data then some "中证500"
  else none

/-- `get_stock_name` from `stock_data.py`.  The live equity snapshot
(`ak.stock_zh_a_spot_em()`, a table of bare code and name) is an explicit
parameter; the three index branches return before it is consulted. -/
def get_stock_name (snapshot : List (String × String)) (code : String) : Option String :=
  let normalized := normalize_list code.data
  match index_names_get normalized with
  | some n => some n
  | none =>
      if Py.idxPattern6 code.data then index_names_get code.data
      else if Py.legacyPattern (Py.upper code.data) then index_names_get (Py.upper code.data)
      else
        let pure_code := Py.stripMarket normalized
        (snapshot.find? (fun p => p.1.data = pure_code)).map (fun p => p.2)

end StockData

namespace StockAnalyzer

/-- The `index_map` dictionary of `stock_analyzer.py`. -/
def index_map_get (l : List Char) : Option (List Char) :=
  if l = "1A0001".data then some "sh000001".data
  else if l = "000001".data then some "sh000001".data
  else if l = "399001".data then some "sz399001".data
  else if l = "399006".data then some "sz399006".data
  else if l = "000300".data then some "sh000300".data
  else if l = "000016".data then some "sh000016".data
  else if l = "399905".data then some "sz399905".data
  else none

/-- `is_valid_stock_code` from `stock_analyzer.py`. -/
def is_valid_stock_code (s : String) : Bool :=
  Py.stockPattern (Py.lower s.data) || Py.indexPattern (Py.upper s.data)

/-- Body of `normalize_stock_code` from `stock_analyzer.py`. -/
def normalize_list (s : List Char) : List Char :=
  let code := Py.stripList s
  if Py.legacyPattern (Py.upper code) || Py.idxPattern6 code then
    match index_map_get (Py.upper code) with
    | some v => v
    | none =>
        match index_map_get code with
        | some v => v
        | none => code
  else if Py.marketPrefixHead (Py.lower code) then Py.lower code
  else code

/-- `normalize_stock_code` from `stock_analyzer.py`. -/
def normalize_stock_code (s : String) : String :=
  String.mk (normalize_list s.data)

end StockAnalyzer

namespace Validators

/-- The `index_map` dictionary of `src/utils/validators.py`. -/
def index_map_get (l : List Char) : Option (List Char) :=
  if l = "1A0001".data then some "sh000001".data
  else if l = "000001".data then some "sh000001".data
  else if l = "399001".data then some "sz399001".data
  else if l = "399006".data then some "sz399006".data
  else if l = "000300".data then some "sh000300".data
  else if l = "000016".data then some "sh000016".data
  else if l = "399905".data then some "sz399905".data
  else none

/-- `is_valid_stock_code` from `src/utils/validators.py`. -/
def is_valid_stock_code (s : String) : Bool :=
  Py.stockPattern (Py.lower s.data) || Py.indexPattern (Py.upper s.data)

/-- Body of `normalize_stock_code` from `src/utils/validators.py`. -/
def normalize_list (s : List Char) : List Char :=
  let code := Py.stripList s
  if Py.legacyPattern (Py.upper code) || Py.idxPattern6 code then
    match index_map_get (Py.upper code) with
    | some v => v
    | none =>
        match index_map_get code with
        | some v => v
        | none => code
  else if Py.marketPrefixHead (Py.lower code) then Py.lower code
  else code

/-- `normalize_stock_code` from `src/utils/validators.py`. -/
def normalize_stock_code (s : String) : String :=
  String.mk (normalize_list s.data)

end Validators

/-- IEEE-754-style value as produced by pandas float arithmetic: a finite
value, a signed infinity, or NaN.  Finite values are exact rationals; the
claims under verification concern signs, bounds and definedness, which
floating-point rounding preserves. -/
inductive FV where
  | fin (q : ℚ)
  | pinf
  | ninf
  | nan
deriving DecidableEq, Repr

namespace FV

/-- A pandas cell: NaN for a missing value. -/
def ofOpt : Option ℚ → FV
  | none => nan
  | some q => fin q

/-- IEEE addition. -/
def fadd : FV → FV → FV
  | nan, _ => nan
  | _, nan => nan
  | fin a, fin b => fin (a + b)
  | fin _, pinf => pinf
  | fin _, ninf => ninf
  | pinf, fin _ => pinf
  | ninf, fin _ => ninf
  | pinf, pinf => pinf
  | ninf, ninf => ninf
  | pinf, ninf => nan
  | ninf, pinf => nan

/-- IEEE subtraction. -/
def fsub : FV → FV → FV
  | nan, _ => nan
  | _, nan => nan
  | fin a, fin b => fin (a - b)
  | fin _, pinf => ninf
  | fin _, ninf => pinf
  | pinf, fin _ => pinf
  | ninf, fin _ => ninf
  | pinf, ninf => pinf
  | ninf, pinf => ninf
  | pinf, pinf => nan
  | ninf, ninf => nan

/-- IEEE division (numpy semantics: `x / 0` is a signed infinity for
`x ≠ 0` and NaN for `x = 0`). -/
def fdiv : FV → FV → FV
  | nan, _ => nan
  | _, nan => nan
  | fin a, fin b =>
      if b = 0 then (if a = 0 then nan else if 0 < a then pinf else ninf)
      else fin (a / b)
  | fin _, pinf => fin 0
  | fin _, ninf => fin 0
  | pinf, fin b => if 0 ≤ b then pinf else ninf
  | ninf, fin b => if 0 ≤ b then ninf else pinf
  | pinf, pinf => nan
  | pinf, ninf => nan
  | ninf, pinf => nan
  | ninf, ninf => nan

/-- IEEE comparison of a value against a finite threshold: NaN compares
false. -/
def fgtQ : FV → ℚ → Bool
  | fin a, b => decide (b < a)
  | pinf, _ => true
  | ninf, _ => false
  | nan, _ => false

end FV

namespace StockData

/-- Trailing `rolling(window=w).mean()` of a series with no missing
values: defined from index `w - 1` on. -/
def rollingMean (w : ℕ) (xs : List ℚ) : List (Option ℚ) :=
  (List.range xs.length).map (fun i =>
    if i + 1 < w then none
    else some (((xs.drop (i + 1 - w)).take w).sum / (w : ℚ)))

/-- Trailing `rolling(window=w).std() ** 2` (sample variance, `ddof = 1`). -/
def rollingVar (w : ℕ) (xs : List ℚ) : List (Option ℚ) :=
  (List.range xs.length).map (fun i =>
    if i + 1 < w then none
    else
      let win := (xs.drop (i + 1 - w)).take w
      let m := win.sum / (w : ℚ)
      some ((win.map (fun x => (x - m) ^ 2)).sum / ((w : ℚ) - 1)))

/-- `data['收盘'].diff()`: NaN at index 0, consecutive difference after. -/
def deltaList (closes : List ℚ) : List (Option ℚ) :=
  match closes with
  | [] => []
  | _ :: t => none :: List.zipWith (fun b a => some (b - a)) t closes

/-- `delta.where(delta > 0, 0)`: positive deltas kept, everything else —
including the NaN at index 0, whose comparison is false — replaced by 0. -/
def gainFill (closes : List ℚ) : List ℚ :=
  (deltaList closes).map (fun od =>
    match od with
    | none => 0
    | some d => if 0 < d then d else 0)

/-- `-delta.where(delta < 0, 0)`: negated negative deltas, everything else
— including the NaN at index 0 — replaced by 0. -/
def lossFill (closes : List ℚ) : List ℚ :=
  (deltaList closes).map (fun od =>
    match od with
    | none => 0
    | some d => -(if d < 0 then d else 0))

/-- The intermediate `rs = gain / loss` of `calculate_rsi`. -/
def rs_series (closes : List ℚ) (periods : ℕ) : List FV :=
  List.zipWith (fun g l => FV.fdiv (FV.ofOpt g) (FV.ofOpt l))
    (rollingMean periods (gainFill closes)) (rollingMean periods (lossFill closes))

/-- `calculate_rsi` from `stock_data.py`: `rsi = 100 - 100 / (1 + rs)`. -/
def calculate_rsi (closes : List ℚ) (periods : ℕ) : List FV :=
  (rs_series closes periods).map (fun rs =>
    FV.fsub (FV.fin 100) (FV.fdiv (FV.fin 100) (FV.fadd (FV.fin 1) rs)))

/-- `ewm(span=s, adjust=False).mean()` recursion after the seed value. -/
def ewmAux (a : ℚ) : ℚ → List ℚ → List ℚ
  | _, [] => []
  | prev, x :: t =>
      let cur := a * x + (1 - a) * prev
      cur :: ewmAux a cur t

/-- `ewm(span=s, adjust=False).mean()`: first value seeds from the first
observation, then `y = a * x + (1 - a) * y_prev` with `a = 2 / (s + 1)`. -/
def ewmList (span : ℕ) (xs : List ℚ) : List ℚ :=
  match xs with
  | [] => []
  | x :: t => x :: ewmAux (2 / ((span : ℚ) + 1)) x t

/-- `calculate_macd` from `stock_data.py` (12/26/9 EMA). -/
def calculate_macd (closes : List ℚ) : List ℚ × List ℚ × List ℚ :=
  let exp1 := ewmList 12 closes
  let exp2 := ewmList 26 closes
  let macd := List.zipWith (fun a b => a - b) exp1 exp2
  let signal := ewmList 9 macd
  let hist := List.zipWith (fun a b => a - b) macd signal
  (macd, signal, hist)

/-- `np.polyfit(x, y, 1)` with `x = 0..n-1`: the least-squares line,
by the closed-form normal-equation solution `(slope, intercept)`. -/
def polyfit1 (ys : List ℚ) : ℚ × ℚ :=
  let n : ℚ := (ys.length : ℚ)
  let xs : List ℚ := (List.range ys.length).map (fun i => (i : ℚ))
  let sx := xs.sum
  let sy := ys.sum
  let sxx := (xs.map (fun x => x * x)).sum
  let sxy := (List.zipWith (fun x y => x * y) xs ys).sum
  let a := (n * sxy - sx * sy) / (n * sxx - sx * sx)
  let b := (sy - a * sx) / n
  (a, b)

/-- Python slice `l[-m:]` for `m > 0` (and the full list for `m = 0`). -/
def tailSlice (m : ℕ) (l : List ℚ) : List ℚ :=
  if m = 0 then l else l.drop (l.length - m)

/-- The prediction loop of `predict_ma`: at step `i` evaluate the fitted
line at `len(prices) + i`, pop the head of the sliding window when it is
full, append the predicted price, and record the trailing mean. -/
def predictLoop (p : ℚ → ℚ) (nlen m : ℕ) : ℕ → ℕ → List ℚ → List ℚ
  | 0, _, _ => []
  | k + 1, i, lp =>
      let next := p ((nlen + i : ℕ) : ℚ)
      let lp' := (if m ≤ lp.length then lp.drop 1 else lp) ++ [next]
      let ma := (tailSlice m lp').sum / (m : ℚ)
      ma :: predictLoop p nlen m k (i + 1) lp'

/-- `predict_ma` from `stock_data.py`. -/
def predict_ma (closes : List ℚ) (ma_period predict_days : ℕ) : List ℚ :=
  let z := polyfit1 closes
  let p := fun x => z.1 * x + z.2
  predictLoop p closes.length ma_period predict_days 0 (tailSlice ma_period closes)

/-- `datetime.weekday() < 5`, over dates as day numbers with
`weekday d = d % 7` (0 = Monday, 5 = Saturday, 6 = Sunday). -/
def isTradingDay (d : ℕ) : Bool := decide (d % 7 < 5)

/-- The walking loop of `get_next_trading_dates`: add one day at a time,
keep weekdays, stop once `num` dates are collected.  `fuel` bounds the
number of days examined. -/
def nextTradingAux : ℕ → ℕ → ℕ → List ℕ → List ℕ
  | 0, _, _, acc => acc.reverse
  | fuel + 1, d, num, acc =>
      if num ≤ acc.length then acc.reverse
      else nextTradingAux fuel (d + 1) num (if isTradingDay (d + 1) then (d + 1) :: acc else acc)

/-- `get_next_trading_dates` from `stock_data.py`.  A fuel of
`7 * num + 7` days always suffices (each block of 7 consecutive days holds
exactly 5 weekdays), which is proved below. -/
def get_next_trading_dates (last num : ℕ) : List ℕ :=
  nextTradingAux (7 * num + 7) last num []

/-- The 20-bar sample variance under the last bar's Bollinger window. -/
def varAt (closes : List ℚ) (i : ℕ) : Option ℚ :=
  ((rollingVar 20 closes).get? i).join

/-- The 20-bar SMA (`BB_Middle`) at index `i`. -/
def smaAt (closes : List ℚ) (i : ℕ) : Option ℚ :=
  ((rollingMean 20 closes).get? i).join

/-- `BB_Upper` at index `i`: `sma + std * 2` from
`calculate_bollinger_bands`, with the exact real square root as the
idealization of the floating-point `rolling.std()`. -/
noncomputable def bbUpperAt (closes : List ℚ) (i : ℕ) : Option ℝ :=
  match smaAt closes i, varAt closes i with
  | some m, some v => some ((m : ℝ) + Real.sqrt (v : ℝ) * 2)
  | _, _ => none

/-- `BB_Lower` at index `i`: `sma - std * 2`. -/
noncomputable def bbLowerAt (closes : List ℚ) (i : ℕ) : Option ℝ :=
  match smaAt closes i, varAt closes i with
  | some m, some v => some ((m : ℝ) - Real.sqrt (v : ℝ) * 2)
  | _, _ => none

/-- One daily quote bar, after column unification. -/
structure Bar where
  date : ℕ
  close : ℚ
  volume : ℚ
  amount : ℚ
  turnover : Option ℚ
deriving DecidableEq

/-- The three moving-average alignment classes printed by the renderer. -/
inductive Alignment where
  | bullish
  | bearish
  | mixed
deriving DecidableEq, Repr

/-- The alignment branch of `analyze_stock_data` (lines 290-295): the
chained Python comparison is a conjunction. -/
def ma_alignment (m3 m5 m8 m13 m21 : ℚ) : Alignment :=
  if m3 > m5 ∧ m5 > m8 ∧ m8 > m13 ∧ m13 > m21 then Alignment.bullish
  else if m3 < m5 ∧ m5 < m8 ∧ m8 < m13 ∧ m13 < m21 then Alignment.bearish
  else Alignment.mixed

/-- The three operation recommendations of the renderer. -/
inductive Recommendation where
  | buyOnDips
  | cautionReduce
  | wait
deriving DecidableEq, Repr

/-- The `trend_signals` list built at lines 377-385. -/
def trend_signals (ma5 ma13 rsi macd sig price bbmid : ℚ) : List String :=
  (if ma5 > ma13 then ["短期均线在长期均线之上"] else []) ++
  (if rsi > 50 then ["RSI处于上升趋势区间"] else []) ++
  (if macd > sig then ["MACD呈现金叉形态"] else []) ++
  (if price > bbmid then ["价格在布林带中轨之上"] else [])

/-- The `risks` list built at lines 397-406. -/
def risks_list (rsi price bbup vol avgvol : ℚ) (turnover : Option ℚ) : List String :=
  (if rsi > 70 then ["RSI处于超买区间，注意回调风险"] else []) ++
  (if price > bbup then ["价格突破布林带上轨，注意回调风险"] else []) ++
  (if vol > avgvol * 2 then ["成交量显著放大，注意价格变动风险"] else []) ++
  (match turnover with
   | some t => if t > 15 then ["换手率过高，交易过于活跃，注意风险"] else []
   | none => [])

/-- The recommendation branch at lines 415-421: `not risks` is the
empty-list test. -/
def operation_advice (ts rs : List String) : Recommendation :=
  if 3 ≤ ts.length ∧ rs = [] then Recommendation.buyOnDips
  else if 2 ≤ rs.length then Recommendation.cautionReduce
  else Recommendation.wait

/-- Spec-side bullish tally: the count of the four bullish conditions. -/
def bullishTally (ma5 ma13 rsi macd sig price bbmid : ℚ) : ℕ :=
  (if ma5 > ma13 then 1 else 0) + (if rsi > 50 then 1 else 0) +
  (if macd > sig then 1 else 0) + (if price > bbmid then 1 else 0)

/-- Spec-side risk tally: the count of the four risk conditions. -/
def riskTally (rsi price bbup vol avgvol : ℚ) (turnover : Option ℚ) : ℕ :=
  (if rsi > 70 then 1 else 0) + (if price > bbup then 1 else 0) +
  (if vol > avgvol * 2 then 1 else 0) +
  (match turnover with
   | some t => if t > 15 then 1 else 0
   | none => 0)

/-- Spec-side recommendation from the two tallies alone. -/
def recommendationOfTallies (b r : ℕ) : Recommendation :=
  if 3 ≤ b ∧ r = 0 then Recommendation.buyOnDips
  else if 2 ≤ r then Recommendation.cautionReduce
  else Recommendation.wait

/-- The structured output events of `analyze_stock_data`. -/
inductive ROut where
  | fetchingNote
  | dataUnavailable
  | columnsNote
  | barTable
  | maRanking
  | volumeAnalysis
  | alignmentNote (a : Alignment)
  | macdBlock
  | rsiBlock
  | bollingerBlock
  | turnoverBlock
  | predictionTable
  | trendBlock (n : ℕ)
  | riskBlock (n : ℕ)
  | adviceLine (r : Recommendation)
  | errorDiag
  | errorAdvice
deriving DecidableEq

/-- Whether an output event belongs to the indicator tables and analysis
sections (everything except the pre-fetch note and the diagnostics). -/
def isIndicatorSection : ROut → Bool
  | ROut.fetchingNote => false
  | ROut.dataUnavailable => false
  | ROut.errorDiag => false
  | ROut.errorAdvice => false
  | _ => true

/-- Comparison of two possibly-missing values, false when either side is
NaN (IEEE semantics of the renderer's float comparisons). -/
def optGT : Option ℚ → Option ℚ → Bool
  | some a, some b => decide (b < a)
  | _, _ => false

open Classical in
/-- The report body of `analyze_stock_data` for a non-empty series
(lines 206-421), as the sequence of emitted sections.  Each section tag
carries the data the later claims need (alignment class, tally sizes,
recommendation). -/
noncomputable def renderReport (bars : List Bar) : List ROut :=
  match bars.getLast? with
  | none => []
  | some latest =>
      let closes := bars.map (fun b => b.close)
      let i := closes.length - 1
      let m3 := ((rollingMean 3 closes).get? i).join
      let m5 := ((rollingMean 5 closes).get? i).join
      let m8 := ((rollingMean 8 closes).get? i).join
      let m13 := ((rollingMean 13 closes).get? i).join
      let m21 := ((rollingMean 21 closes).get? i).join
      let macdAll := calculate_macd closes
      let macdLatest := (macdAll.1.get? i).getD 0
      let sigLatest := (macdAll.2.1.get? i).getD 0
      let rsi := ((calculate_rsi closes 14).get? i).getD FV.nan
      let bbmid := smaAt closes i
      let bbup := bbUpperAt closes i
      let price := latest.close
      let recentVols := (bars.drop (bars.length - 21)).map (fun b => b.volume)
      let avgvol := recentVols.sum / (recentVols.length : ℚ)
      let align :=
        match m3, m5, m8, m13, m21 with
        | some a, some b, some c, some d, some e => ma_alignment a b c d e
        | _, _, _, _, _ => Alignment.mixed
      let ts : List String :=
        (if optGT m5 m13 then ["短期均线在长期均线之上"] else []) ++
        (if FV.fgtQ rsi 50 then ["RSI处于上升趋势区间"] else []) ++
        (if macdLatest > sigLatest then ["MACD呈现金叉形态"] else []) ++
        (if optGT (some price) bbmid then ["价格在布林带中轨之上"] else [])
      let rs : List String :=
        (if FV.fgtQ rsi 70 then ["RSI处于超买区间，注意回调风险"] else []) ++
        (match bbup with
         | some u => if (price : ℝ) > u then ["价格突破布林带上轨，注意回调风险"] else []
         | none => []) ++
        (if latest.volume > avgvol * 2 then ["成交量显著放大，注意价格变动风险"] else []) ++
        (match latest.turnover with
         | some t => if t > 15 then ["换手率过高，交易过于活跃，注意风险"] else []
         | none => [])
      [ROut.columnsNote, ROut.barTable, ROut.maRanking, ROut.volumeAnalysis,
       ROut.alignmentNote align, ROut.macdBlock, ROut.rsiBlock, ROut.bollingerBlock] ++
      (match latest.turnover with
       | some _ => [ROut.turnoverBlock]
       | none => []) ++
      [ROut.predictionTable, ROut.trendBlock ts.length, ROut.riskBlock rs.length,
       ROut.adviceLine (operation_advice ts rs)]

/-- `analyze_stock_data` from `stock_data.py`, as a function of the fetch
outcome: `.error` is a raised exception in the fetch call, `.ok none` a
`None` result, `.ok (some bars)` a returned series.  The surrounding
`try/except` turns every raised exception into the two diagnostic lines
(lines 423-425); an absent or empty series prints the single
data-unavailable line and returns (lines 202-204).  A result of
`Except.error` would model an exception propagating to the caller. -/
noncomputable def analyze_stock_data (fetched : Except String (Option (List Bar))) :
    Except String (List ROut) :=
  match fetched with
  | Except.error _ => Except.ok [ROut.fetchingNote, ROut.errorDiag, ROut.errorAdvice]
  | Except.ok none => Except.ok [ROut.fetchingNote, ROut.dataUnavailable]
  | Except.ok (some []) => Except.ok [ROut.fetchingNote, ROut.dataUnavailable]
  | Except.ok (some (b :: t)) => Except.ok (ROut.fetchingNote :: renderReport (b :: t))

end StockData

/-- Probe input: 14 closes alternating 1, 2. -/
def updown14 : List ℚ := [1, 2, 1, 2, 1, 2, 1, 2, 1, 2, 1, 2, 1, 2]

/-- Probe input: 15 strictly ascending closes. -/
def asc15 : List ℚ := [1, 2, 3, 4, 5, 6, 7, 8, 9, 10, 11, 12, 13, 14, 15]

/-- The 21-row close series of the spec's end-to-end scenario: linear from
10.00 to 30.00. -/
def lin21 : List ℚ :=
  [10, 11, 12, 13, 14, 15, 16, 17, 18, 19, 20,
   21, 22, 23, 24, 25, 26, 27, 28, 29, 30]

/-- Probe input: 20 closes, not all equal. -/
def spike20 : List ℚ :=
  [1, 1, 1, 1, 1, 1, 1, 1, 1, 1, 1, 1, 1, 1, 1, 1, 1, 1, 1, 2]

/-! Character-level lemmas about the embedded Python string primitives. -/

theorem isWS_lowC (c : Char) : Py.isWS (Py.lowC c) = Py.isWS c := by
  unfold Py.lowC
  split <;> rfl

theorem isWS_of_isDig (c : Char) (h : Py.isDig c = true) : Py.isWS c = false := by
  unfold Py.isDig at h
  split at h <;> first | rfl | exact absurd h (by decide)

theorem lowC_of_isDig (c : Char) (h : Py.isDig c = true) : Py.lowC c = c := by
  unfold Py.isDig at h
  split at h <;> first | rfl | exact absurd h (by decide)

theorem upC_of_isDig (c : Char) (h : Py.isDig c = true) : Py.upC c = c := by
  unfold Py.isDig at h
  split at h <;> first | rfl | exact absurd h (by decide)

theorem isAsciiAlpha_of_isDig (c : Char) (h : Py.isDig c = true) :
    Py.isAsciiAlpha c = false := by
  unfold Py.isDig at h
  split at h <;> first | rfl | exact absurd h (by decide)

theorem isDig_lowC (c : Char) : Py.isDig (Py.lowC c) = Py.isDig c := by
  unfold Py.lowC
  split <;> rfl

theorem lowC_not_upper (c : Char) : Py.isUpAZ (Py.lowC c) = false := by
  unfold Py.lowC
  split <;> first | rfl | (unfold Py.isUpAZ; split <;> simp_all)

theorem lowC_of_not_upper (c : Char) (h : Py.isUpAZ c = false) : Py.lowC c = c := by
  unfold Py.lowC
  split <;> first | rfl | exact absurd h (by decide)

theorem lowC_lowC (c : Char) : Py.lowC (Py.lowC c) = Py.lowC c :=
  lowC_of_not_upper _ (lowC_not_upper c)

theorem upC_of_lowC_s (a : Char) (h : Py.lowC a = 's') : Py.upC a = 'S' := by
  unfold Py.lowC at h
  split at h <;> first | exact absurd h (by decide) | decide | (subst h; decide)

theorem upC_of_lowC_b (a : Char) (h : Py.lowC a = 'b') : Py.upC a = 'B' := by
  unfold Py.lowC at h
  split at h <;> first | exact absurd h (by decide) | decide | (subst h; decide)

theorem lowC_ne_of_s (a : Char) (h : Py.lowC a = 's') : a ≠ '0' ∧ a ≠ '3' := by
  constructor <;> intro he <;> rw [he] at h <;> exact absurd h (by decide)

theorem lowC_ne_of_b (a : Char) (h : Py.lowC a = 'b') : a ≠ '0' ∧ a ≠ '3' := by
  constructor <;> intro he <;> rw [he] at h <;> exact absurd h (by decide)

/-! Lemmas about `Py.stripList` (Python `str.strip`). -/

theorem dropWhile_head_false {α : Type} {p : α → Bool} (l : List α) (c : α)
    (h : (l.dropWhile p).head? = some c) : p c = false := by
  induction l with
  | nil => simp [List.dropWhile] at h
  | cons a t ih =>
      rw [List.dropWhile_cons] at h
      by_cases hp : p a = true
      · rw [if_pos hp] at h
        exact ih h
      · rw [if_neg hp] at h
        simp at h
        rw [← h]
        simpa using hp

theorem dropWhile_eq_self_of_head {α : Type} {p : α → Bool} (l : List α)
    (h : ∀ c, l.head? = some c → p c = false) : l.dropWhile p = l := by
  cases l with
  | nil => rfl
  | cons a t =>
      rw [List.dropWhile_cons, if_neg]
      simp [h a rfl]

theorem dropWhile_dropWhile {α : Type} {p : α → Bool} (l : List α) :
    (l.dropWhile p).dropWhile p = l.dropWhile p :=
  dropWhile_eq_self_of_head _ (fun _ hc => dropWhile_head_false _ _ hc)

theorem stripList_idem (l : List Char) :
    Py.stripList (Py.stripList l) = Py.stripList l := by
  unfold Py.stripList
  have h1 : ((l.dropWhile Py.isWS).reverse.dropWhile Py.isWS).reverse.dropWhile Py.isWS =
      ((l.dropWhile Py.isWS).reverse.dropWhile Py.isWS).reverse := by
    apply dropWhile_eq_self_of_head
    intro c hc
    rw [List.head?_reverse] at hc
    rcases List.dropWhile_suffix (l := (l.dropWhile Py.isWS).reverse) Py.isWS with ⟨t, ht⟩
    have hlast : (l.dropWhile Py.isWS).reverse.getLast? = some c := by
      rw [← ht, List.getLast?_append, hc]
      rfl
    rw [List.getLast?_reverse] at hlast
    exact dropWhile_head_false _ _ hlast
  rw [h1, List.reverse_reverse, dropWhile_dropWhile]

theorem stripList_eq_self (l : List Char) (h : ∀ c ∈ l, Py.isWS c = false) :
    Py.stripList l = l := by
  unfold Py.stripList
  rw [dropWhile_eq_self_of_head _ (fun c hc => h c (List.mem_of_mem_head? hc)),
    dropWhile_eq_self_of_head _
      (fun c hc => h c (List.mem_reverse.mp (List.mem_of_mem_head? hc))),
    List.reverse_reverse]

theorem stripList_lower (l : List Char) :
    Py.stripList (Py.lower l) = Py.lower (Py.stripList l) := by
  have hfix : (Py.isWS ∘ Py.lowC) = Py.isWS := funext isWS_lowC
  unfold Py.stripList Py.lower
  rw [List.dropWhile_map, hfix, ← List.map_reverse, List.dropWhile_map, hfix,
    ← List.map_reverse]

theorem lower_lower (l : List Char) : Py.lower (Py.lower l) = Py.lower l := by
  simp only [Py.lower, List.map_map]
  exact List.map_congr_left (fun a _ => lowC_lowC a)

/-! Lemmas about the embedded regex patterns. -/

theorem sixDigits_false_of_head (a : Char) (t : List Char) (h : Py.isDig a = false) :
    Py.sixDigits (a :: t) = false := by
  unfold Py.sixDigits
  split <;> simp_all

theorem sixDigits_shape (l : List Char) (h : Py.sixDigits l = true) :
    ∃ a b c d e f, l = [a, b, c, d, e, f] := by
  unfold Py.sixDigits at h
  split at h
  · exact ⟨_, _, _, _, _, _, rfl⟩
  · exact absurd h (by decide)

theorem sixDigits_mem (l : List Char) (h : Py.sixDigits l = true) :
    ∀ c ∈ l, Py.isDig c = true := by
  obtain ⟨a, b, c, d, e, f, rfl⟩ := sixDigits_shape l h
  simp [Py.sixDigits] at h
  intro x hx
  fin_cases hx <;> tauto

theorem legacyPattern_false_of_head (a : Char) (t : List Char) (h : Py.isDig a = false) :
    Py.legacyPattern (a :: t) = false := by
  unfold Py.legacyPattern
  split <;> simp_all

theorem legacyPattern_false_of_six (l : List Char) (h : Py.sixDigits l = true) :
    Py.legacyPattern l = false := by
  obtain ⟨a, b, c, d, e, f, rfl⟩ := sixDigits_shape l h
  have hb : Py.isDig b = true := sixDigits_mem _ h b (by simp)
  simp [Py.legacyPattern, isAsciiAlpha_of_isDig b hb]

theorem idxPattern6_false_of_head (a : Char) (t : List Char)
    (h0 : a ≠ '0') (h3 : a ≠ '3') : Py.idxPattern6 (a :: t) = false := by
  unfold Py.idxPattern6
  split <;> simp_all

theorem marketPrefixHead_shape (m : List Char) (h : Py.marketPrefixHead m = true) :
    ∃ a b t, m = a :: b :: t ∧
      ((a = 's' ∧ (b = 'h' ∨ b = 'z')) ∨ (a = 'b' ∧ b = 'j')) := by
  unfold Py.marketPrefixHead at h
  split at h
  · rename_i a b t
    simp at h
    exact ⟨a, b, t, rfl, h⟩
  · exact absurd h (by decide)

theorem marketPrefixHead_false_of_dig (a : Char) (t : List Char)
    (h : Py.isDig a = true) : Py.marketPrefixHead (a :: t) = false := by
  unfold Py.isDig at h
  split at h <;> first
    | exact absurd h (by decide)
    | (cases t <;> rfl)

/-! Lemmas about `normalize_stock_code`. -/

theorem index_map_get_cases (l v : List Char)
    (h : StockData.index_map_get l = some v) :
    v = "sh000001".data ∨ v = "sz399001".data ∨ v = "sz399006".data ∨
    v = "sh000300".data ∨ v = "sh000016".data ∨ v = "sz399905".data := by
  unfold StockData.index_map_get at h
  split_ifs at h <;> simp_all

theorem normalize_list_fixed_six (v : List Char)
    (h : v = "sh000001".data ∨ v = "sz399001".data ∨ v = "sz399006".data ∨
      v = "sh000300".data ∨ v = "sh000016".data ∨ v = "sz399905".data) :
    StockData.normalize_list v = v := by
  rcases h with rfl | rfl | rfl | rfl | rfl | rfl <;> decide

theorem norm_index_branch (s : List Char)
    (h1 : (Py.legacyPattern (Py.upper (Py.stripList s)) ||
      Py.idxPattern6 (Py.stripList s)) = true) :
    StockData.normalize_list s =
      (match StockData.index_map_get (Py.upper (Py.stripList s)) with
       | some v => v
       | none =>
           match StockData.index_map_get (Py.stripList s) with
           | some v => v
           | none => Py.stripList s) := by
  simp only [StockData.normalize_list]
  rw [if_pos h1]

theorem norm_prefix_branch (s : List Char)
    (h1 : (Py.legacyPattern (Py.upper (Py.stripList s)) ||
      Py.idxPattern6 (Py.stripList s)) = false)
    (h2 : Py.marketPrefixHead (Py.lower (Py.stripList s)) = true) :
    StockData.normalize_list s = Py.lower (Py.stripList s) := by
  simp only [StockData.normalize_list]
  rw [if_neg (by simp [h1]), if_pos h2]

theorem norm_other_branch (s : List Char)
    (h1 : (Py.legacyPattern (Py.upper (Py.stripList s)) ||
      Py.idxPattern6 (Py.stripList s)) = false)
    (h2 : Py.marketPrefixHead (Py.lower (Py.stripList s)) = false) :
    StockData.normalize_list s = Py.stripList s := by
  simp only [StockData.normalize_list]
  rw [if_neg (by simp [h1]), if_neg (by simp [h2])]

theorem normalize_list_idem (l : List Char) :
    StockData.normalize_list (StockData.normalize_list l) =
      StockData.normalize_list l := by
  by_cases h1 : (Py.legacyPattern (Py.upper (Py.stripList l)) ||
      Py.idxPattern6 (Py.stripList l)) = true
  · rw [norm_index_branch l h1]
    rcases hup : StockData.index_map_get (Py.upper (Py.stripList l)) with _ | v
    · rcases hraw : StockData.index_map_get (Py.stripList l) with _ | v
      · have hs : Py.stripList (Py.stripList l) = Py.stripList l := stripList_idem l
        rw [norm_index_branch _ (by rw [hs]; exact h1)]
        rw [hs, hup, hraw]
      · exact normalize_list_fixed_six v (index_map_get_cases _ _ hraw)
    · exact normalize_list_fixed_six v (index_map_get_cases _ _ hup)
  · have h1f : (Py.legacyPattern (Py.upper (Py.stripList l)) ||
        Py.idxPattern6 (Py.stripList l)) = false := by simpa using h1
    by_cases h2 : Py.marketPrefixHead (Py.lower (Py.stripList l)) = true
    · rw [norm_prefix_branch l h1f h2]
      obtain ⟨a2, b2, t2, hshape, hd⟩ := marketPrefixHead_shape _ h2
      have hstripc : Py.stripList (Py.stripList l) = Py.stripList l := stripList_idem l
      have hstrip : Py.stripList (Py.lower (Py.stripList l)) =
          Py.lower (Py.stripList l) := by
        rw [stripList_lower]
        exact congrArg Py.lower hstripc
      have hcond1 : (Py.legacyPattern (Py.upper (Py.stripList (Py.lower (Py.stripList l)))) ||
          Py.idxPattern6 (Py.stripList (Py.lower (Py.stripList l)))) = false := by
        rw [hstrip, hshape]
        rcases hd with ⟨rfl, _⟩ | ⟨rfl, rfl⟩
        · have e1 : Py.upper ('s' :: b2 :: t2) = 'S' :: Py.upper (b2 :: t2) := rfl
          rw [e1, legacyPattern_false_of_head _ _ (by decide),
            idxPattern6_false_of_head _ _ (by decide) (by decide)]
          rfl
        · have e1 : Py.upper ('b' :: 'j' :: t2) = 'B' :: Py.upper ('j' :: t2) := rfl
          rw [e1, legacyPattern_false_of_head _ _ (by decide),
            idxPattern6_false_of_head _ _ (by decide) (by decide)]
          rfl
      have hcond2 : Py.marketPrefixHead (Py.lower (Py.stripList (Py.lower (Py.stripList l)))) =
          true := by
        rw [hstrip, lower_lower]
        exact h2
      rw [norm_prefix_branch _ hcond1 hcond2, hstrip, lower_lower]
    · have h2f : Py.marketPrefixHead (Py.lower (Py.stripList l)) = false := by
        simpa using h2
      rw [norm_other_branch l h1f h2f]
      have hs : Py.stripList (Py.stripList l) = Py.stripList l := stripList_idem l
      rw [norm_other_branch _ (by rw [hs]; exact h1f) (by rw [hs]; exact h2f), hs]

theorem valid_prefixed_eval (s : List Char)
    (hv : (Py.stockPattern (Py.lower s) || Py.indexPattern (Py.upper s)) = true)
    (hp : Py.marketPrefixHead (Py.lower s) = true) :
    StockData.normalize_list s = Py.lower s := by
  obtain ⟨a2, b2, t2, hshape, hd⟩ := marketPrefixHead_shape _ hp
  rcases s with _ | ⟨x, s1⟩
  · simp [Py.lower] at hshape
  rcases s1 with _ | ⟨y, t⟩
  · simp [Py.lower] at hshape
  simp only [Py.lower, List.map_cons, List.cons.injEq] at hshape
  obtain ⟨hx, hy, ht⟩ := hshape
  have hxups : Py.upC x = 'S' ∨ Py.upC x = 'B' := by
    rcases hd with ⟨ha, _⟩ | ⟨ha, _⟩
    · exact Or.inl (upC_of_lowC_s x (by rw [hx, ha]))
    · exact Or.inr (upC_of_lowC_b x (by rw [hx, ha]))
  have hxne : x ≠ '0' ∧ x ≠ '3' := by
    rcases hd with ⟨ha, _⟩ | ⟨ha, _⟩
    · exact lowC_ne_of_s x (by rw [hx, ha])
    · exact lowC_ne_of_b x (by rw [hx, ha])
  have hidx : Py.indexPattern (Py.upper (x :: y :: t)) = false := by
    have e1 : Py.upper (x :: y :: t) = Py.upC x :: Py.upper (y :: t) := rfl
    unfold Py.indexPattern
    rcases hxups with hU | hU <;>
      (rw [e1, hU, legacyPattern_false_of_head _ _ (by decide),
        idxPattern6_false_of_head _ _ (by decide) (by decide)]; rfl)
  rw [hidx, Bool.or_false] at hv
  have hxdig : Py.isDig (Py.lowC x) = false := by
    rcases hd with ⟨ha, _⟩ | ⟨ha, _⟩ <;> rw [hx, ha] <;> decide
  have hsixf : Py.sixDigits (Py.lower (x :: y :: t)) = false := by
    have e1 : Py.lower (x :: y :: t) = Py.lowC x :: Py.lower (y :: t) := rfl
    rw [e1]
    exact sixDigits_false_of_head _ _ hxdig
  unfold Py.stockPattern at hv
  rw [hsixf, Bool.false_or] at hv
  simp only [Py.lower, List.map_cons] at hv
  have hsix2 : Py.sixDigits (List.map Py.lowC t) = true :=
    (Bool.and_eq_true_iff.mp hv).2
  have hws : ∀ c ∈ (x :: y :: t), Py.isWS c = false := by
    intro c hc
    rcases List.mem_cons.mp hc with rfl | hc
    · rw [← isWS_lowC c, hx]
      rcases hd with ⟨ha, _⟩ | ⟨ha, _⟩ <;> rw [ha] <;> decide
    rcases List.mem_cons.mp hc with rfl | hc
    · rw [← isWS_lowC c, hy]
      rcases hd with ⟨_, hb | hb⟩ | ⟨_, hb⟩ <;> rw [hb] <;> decide
    · rw [← isWS_lowC c]
      exact isWS_of_isDig _ (sixDigits_mem _ hsix2 _ (List.mem_map_of_mem _ hc))
  have hstrip : Py.stripList (x :: y :: t) = x :: y :: t := stripList_eq_self _ hws
  have hcond1 : (Py.legacyPattern (Py.upper (Py.stripList (x :: y :: t))) ||
      Py.idxPattern6 (Py.stripList (x :: y :: t))) = false := by
    rw [hstrip]
    have e1 : Py.upper (x :: y :: t) = Py.upC x :: Py.upper (y :: t) := rfl
    rcases hxups with hU | hU <;>
      (rw [e1, hU, legacyPattern_false_of_head _ _ (by decide),
        idxPattern6_false_of_head _ _ hxne.1 hxne.2]; rfl)
  have hcond2 : Py.marketPrefixHead (Py.lower (Py.stripList (x :: y :: t))) = true := by
    rw [hstrip]
    exact hp
  rw [norm_prefix_branch _ hcond1 hcond2, hstrip]

theorem bare_six_eval (s : List Char) (h6 : Py.sixDigits s = true)
    (hm : StockData.index_map_get s = none) :
    StockData.normalize_list s = s := by
  have hdig : ∀ c ∈ s, Py.isDig c = true := sixDigits_mem s h6
  have hstrip : Py.stripList s = s :=
    stripList_eq_self _ (fun c hc => isWS_of_isDig c (hdig c hc))
  have hupper : Py.upper s = s := by
    have h1 : Py.upper s = List.map id s :=
      List.map_congr_left (fun c hc => upC_of_isDig c (hdig c hc))
    rw [h1, List.map_id]
  have hlower : Py.lower s = s := by
    have h1 : Py.lower s = List.map id s :=
      List.map_congr_left (fun c hc => lowC_of_isDig c (hdig c hc))
    rw [h1, List.map_id]
  have hlegacy : Py.legacyPattern s = false := legacyPattern_false_of_six s h6
  by_cases hidx : Py.idxPattern6 s = true
  · rw [norm_index_branch s (by rw [hstrip, hupper, hlegacy, hidx]; rfl)]
    rw [hstrip, hupper, hm]
  · have hidxf : Py.idxPattern6 s = false := by simpa using hidx
    have hpf : Py.marketPrefixHead (Py.lower (Py.stripList s)) = false := by
      rw [hstrip, hlower]
      obtain ⟨a, b, c, d, e, f, rfl⟩ := sixDigits_shape s h6
      exact marketPrefixHead_false_of_dig a _ (hdig a (by simp))
    rw [norm_other_branch s (by rw [hstrip, hupper, hlegacy, hidxf]; rfl) hpf, hstrip]

/-- C3: for every string accepted by `is_valid_stock_code`,
`normalize_stock_code` is idempotent; an already-prefixed code passes
through lower-cased, and a plain (non-index-table) bare 6-digit code
passes through unchanged. -/
theorem c3_normalize_idempotent (s : String)
    (h : StockData.is_valid_stock_code s = true) :
    StockData.normalize_stock_code (StockData.normalize_stock_code s) =
      StockData.normalize_stock_code s ∧
    (Py.marketPrefixHead (Py.lower s.data) = true →
      StockData.normalize_stock_code s = String.mk (Py.lower s.data)) ∧
    (Py.sixDigits s.data = true → StockData.index_map_get s.data = none →
      StockData.normalize_stock_code s = s) := by
  obtain ⟨d⟩ := s
  refine ⟨congrArg String.mk (normalize_list_idem d), ?_, ?_⟩
  · intro hp
    exact congrArg String.mk (valid_prefixed_eval d h hp)
  · intro h6 hm
    exact congrArg String.mk (bare_six_eval d h6 hm)

/-- C3 witness: the theorem instantiated at the valid prefixed code
`sh000001` (whose hypotheses hold by computation). -/
theorem c3_witness :
    StockData.is_valid_stock_code "sh000001" = true ∧
    (StockData.normalize_stock_code (StockData.normalize_stock_code "sh000001") =
      StockData.normalize_stock_code "sh000001" ∧
    (Py.marketPrefixHead (Py.lower ("sh000001" : String).data) = true →
      StockData.normalize_stock_code "sh000001" =
        String.mk (Py.lower ("sh000001" : String).data)) ∧
    (Py.sixDigits ("sh000001" : String).data = true →
      StockData.index_map_get ("sh000001" : String).data = none →
      StockData.normalize_stock_code "sh000001" = "sh000001")) :=
  ⟨by decide, c3_normalize_idempotent "sh000001" (by decide)⟩

/-- C9: the validator and normalizer duplicated across `stock_data.py`,
`stock_analyzer.py` and `src/utils/validators.py` are extensionally equal
on every input string. -/
theorem c9_three_copies_extensionally_equal (s : String) :
    (StockData.is_valid_stock_code s = StockAnalyzer.is_valid_stock_code s ∧
     StockData.is_valid_stock_code s = Validators.is_valid_stock_code s) ∧
    (StockData.normalize_stock_code s = StockAnalyzer.normalize_stock_code s ∧
     StockData.normalize_stock_code s = Validators.normalize_stock_code s) :=
  ⟨⟨rfl, rfl⟩, ⟨rfl, rfl⟩⟩

/-- C4: each of the seven legacy/bare index codes normalizes to its
documented canonical prefixed code, and `get_stock_name` resolves the
documented Chinese name for it regardless of the live equity snapshot. -/
theorem c4_index_code_table :
    (StockData.normalize_stock_code "1A0001" = "sh000001" ∧
      ∀ snap, StockData.get_stock_name snap "1A0001" = some "上证指数") ∧
    (StockData.normalize_stock_code "000001" = "sh000001" ∧
      ∀ snap, StockData.get_stock_name snap "000001" = some "上证指数") ∧
    (StockData.normalize_stock_code "399001" = "sz399001" ∧
      ∀ snap, StockData.get_stock_name snap "399001" = some "深证成指") ∧
    (StockData.normalize_stock_code "399006" = "sz399006" ∧
      ∀ snap, StockData.get_stock_name snap "399006" = some "创业板指") ∧
    (StockData.normalize_stock_code "000300" = "sh000300" ∧
      ∀ snap, StockData.get_stock_name snap "000300" = some "沪深300") ∧
    (StockData.normalize_stock_code "000016" = "sh000016" ∧
      ∀ snap, StockData.get_stock_name snap "000016" = some "上证50") ∧
    (StockData.normalize_stock_code "399905" = "sz399905" ∧
      ∀ snap, StockData.get_stock_name snap "399905" = some "中证500") :=
  ⟨⟨by decide, fun _ => rfl⟩, ⟨by decide, fun _ => rfl⟩, ⟨by decide, fun _ => rfl⟩,
   ⟨by decide, fun _ => rfl⟩, ⟨by decide, fun _ => rfl⟩, ⟨by decide, fun _ => rfl⟩,
   ⟨by decide, fun _ => rfl⟩⟩

/-! Lemmas about `calculate_rsi`. -/

theorem get?_zipWith {α β γ : Type} (f : α → β → γ) (l1 : List α) (l2 : List β) (i : ℕ) :
    (List.zipWith f l1 l2).get? i =
      (match l1.get? i, l2.get? i with
       | some a, some b => some (f a b)
       | _, _ => none) := by
  induction l1 generalizing l2 i with
  | nil => cases l2 <;> cases i <;> rfl
  | cons a t ih =>
      cases l2 with
      | nil =>
          rw [List.zipWith_nil_right]
          rcases h : (a :: t).get? i with _ | x <;> simp [h]
      | cons b t2 =>
          cases i with
          | zero => rfl
          | succ j => simpa using ih t2 j

theorem gainFill_nonneg (closes : List ℚ) : ∀ x ∈ StockData.gainFill closes, 0 ≤ x := by
  intro x hx
  obtain ⟨od, _, rfl⟩ := List.mem_map.mp hx
  cases od with
  | none => exact le_refl 0
  | some d =>
      dsimp only
      split
      · exact le_of_lt (by assumption)
      · exact le_refl 0

theorem lossFill_nonneg (closes : List ℚ) : ∀ x ∈ StockData.lossFill closes, 0 ≤ x := by
  intro x hx
  obtain ⟨od, _, rfl⟩ := List.mem_map.mp hx
  cases od with
  | none => simp
  | some d =>
      dsimp only
      split
      · simp
        exact le_of_lt (by assumption)
      · simp

theorem rollingMean_get? (w : ℕ) (xs : List ℚ) (i : ℕ) (hi : i < xs.length) :
    (StockData.rollingMean w xs).get? i =
      some (if i + 1 < w then none
            else some (((xs.drop (i + 1 - w)).take w).sum / (w : ℚ))) := by
  unfold StockData.rollingMean
  rw [List.get?_map, List.get?_range (by simpa using hi)]
  rfl

theorem rollingMean_nonneg (w : ℕ) (xs : List ℚ) (hxs : ∀ x ∈ xs, 0 ≤ x)
    (i : ℕ) (q : ℚ)
    (h : (StockData.rollingMean w xs).get? i = some (some q)) : 0 ≤ q := by
  by_cases hi : i < xs.length
  · rw [rollingMean_get? w xs i hi] at h
    by_cases hw : i + 1 < w
    · rw [if_pos hw] at h
      simp at h
    · rw [if_neg hw] at h
      simp only [Option.some.injEq] at h
      rw [← h]
      apply div_nonneg
      · exact List.sum_nonneg
          (fun x hx => hxs x (List.mem_of_mem_drop (List.mem_of_mem_take hx)))
      · exact Nat.cast_nonneg w
  · have : (StockData.rollingMean w xs).get? i = none := by
      rw [List.get?_eq_none]
      simp [StockData.rollingMean]
      omega
    rw [this] at h
    cases h

theorem rsi_formula_of_fin (r : ℚ) (hr : 0 ≤ r) :
    FV.fsub (FV.fin 100) (FV.fdiv (FV.fin 100) (FV.fadd (FV.fin 1) (FV.fin r))) =
      FV.fin (100 - 100 / (1 + r)) := by
  have h1 : (1 : ℚ) + r ≠ 0 := by positivity
  simp [FV.fadd, FV.fdiv, FV.fsub, h1]

theorem rsi_formula_pinf :
    FV.fsub (FV.fin 100) (FV.fdiv (FV.fin 100) (FV.fadd (FV.fin 1) FV.pinf)) =
      FV.fin 100 := by
  norm_num [FV.fadd, FV.fdiv, FV.fsub]

theorem rsi_bounds_aux (r : ℚ) (hr : 0 ≤ r) :
    0 ≤ 100 - 100 / (1 + r) ∧ 100 - 100 / (1 + r) ≤ 100 := by
  have h2 : 100 / (1 + r) ≤ 100 := div_le_self (by norm_num) (by linarith)
  have h3 : 0 < 100 / (1 + r) := div_pos (by norm_num) (by linarith)
  constructor <;> linarith

theorem rs_series_get? (closes : List ℚ) (i : ℕ) :
    (StockData.rs_series closes 14).get? i =
      (match (StockData.rollingMean 14 (StockData.gainFill closes)).get? i,
             (StockData.rollingMean 14 (StockData.lossFill closes)).get? i with
       | some g, some l => some (FV.fdiv (FV.ofOpt g) (FV.ofOpt l))
       | _, _ => none) := by
  unfold StockData.rs_series
  rw [get?_zipWith]
  rcases (StockData.rollingMean 14 (StockData.gainFill closes)).get? i with _ | g <;>
    rcases (StockData.rollingMean 14 (StockData.lossFill closes)).get? i with _ | l <;> rfl

theorem rsi_zero_loss_aux (closes : List ℚ) (i : ℕ) (g : ℚ)
    (hL : (StockData.rollingMean 14 (StockData.lossFill closes)).get? i = some (some 0))
    (hG : (StockData.rollingMean 14 (StockData.gainFill closes)).get? i = some (some g))
    (hg : 0 < g) :
    (StockData.rs_series closes 14).get? i = some FV.pinf ∧
    (StockData.calculate_rsi closes 14).get? i = some (FV.fin 100) := by
  have hdiv : FV.fdiv (FV.ofOpt (some g)) (FV.ofOpt (some 0)) = FV.pinf := by
    simp [FV.ofOpt, FV.fdiv, ne_of_gt hg, hg]
  have hrs : (StockData.rs_series closes 14).get? i = some FV.pinf := by
    rw [rs_series_get?, hG, hL]
    simp only []
    rw [hdiv]
  refine ⟨hrs, ?_⟩
  unfold StockData.calculate_rsi
  rw [List.get?_map, hrs]
  simp only [Option.map_some']
  rw [rsi_formula_pinf]

/-- C1: every defined (finite) value of the RSI series lies in `[0, 100]`,
and at any bar where the trailing-14 average loss is zero and the
trailing-14 average gain is positive the RSI value is exactly 100. -/
theorem c1_rsi_bounds (closes : List ℚ) (i : ℕ) :
    (∀ q, (StockData.calculate_rsi closes 14).get? i = some (FV.fin q) →
      0 ≤ q ∧ q ≤ 100) ∧
    (∀ g, (StockData.rollingMean 14 (StockData.lossFill closes)).get? i = some (some 0) →
      (StockData.rollingMean 14 (StockData.gainFill closes)).get? i = some (some g) →
      0 < g → (StockData.calculate_rsi closes 14).get? i = some (FV.fin 100)) := by
  constructor
  · intro q hq
    unfold StockData.calculate_rsi at hq
    rw [List.get?_map] at hq
    rcases ho : (StockData.rs_series closes 14).get? i with _ | rs
    · rw [ho] at hq
      cases hq
    rw [ho] at hq
    simp only [Option.map_some', Option.some.injEq] at hq
    rw [rs_series_get?] at ho
    rcases hG : (StockData.rollingMean 14 (StockData.gainFill closes)).get? i with _ | og <;>
      rw [hG] at ho
    · cases ho
    rcases hL : (StockData.rollingMean 14 (StockData.lossFill closes)).get? i with _ | ol <;>
      rw [hL] at ho
    · cases ho
    simp only [Option.some.injEq] at ho
    cases og with
    | none =>
        rw [← ho] at hq
        simp [FV.ofOpt, FV.fdiv, FV.fadd, FV.fsub] at hq
    | some gq =>
        cases ol with
        | none =>
            rw [← ho] at hq
            simp [FV.ofOpt, FV.fdiv, FV.fadd, FV.fsub] at hq
        | some lq =>
            have hgq : 0 ≤ gq := rollingMean_nonneg _ _ (gainFill_nonneg closes) _ _ hG
            have hlq : 0 ≤ lq := rollingMean_nonneg _ _ (lossFill_nonneg closes) _ _ hL
            rcases lt_or_eq_of_le hlq with hpos | hzero
            · have hne : lq ≠ 0 := (ne_of_lt hpos).symm
              have hrs : rs = FV.fin (gq / lq) := by
                rw [← ho]
                simp [FV.ofOpt, FV.fdiv, hne]
              have hr : 0 ≤ gq / lq := div_nonneg hgq (le_of_lt hpos)
              rw [hrs, rsi_formula_of_fin _ hr] at hq
              simp only [FV.fin.injEq] at hq
              rw [← hq]
              exact rsi_bounds_aux _ hr
            · rcases lt_or_eq_of_le hgq with hgpos | hgzero
              · have hrs : rs = FV.pinf := by
                  rw [← ho, ← hzero]
                  simp [FV.ofOpt, FV.fdiv, ne_of_gt hgpos, hgpos]
                rw [hrs, rsi_formula_pinf] at hq
                simp only [FV.fin.injEq] at hq
                rw [← hq]
                norm_num
              · have hrs : rs = FV.nan := by
                  rw [← ho, ← hzero, ← hgzero]
                  simp [FV.ofOpt, FV.fdiv]
                rw [hrs] at hq
                cases hq
  · intro g hL hG hg
    exact (rsi_zero_loss_aux closes i g hL hG hg).2

/-- C1 witness: the theorem at the strictly ascending 15-bar series, where
index 13 has zero average loss and positive average gain, so RSI is 100
and the bound claim is instantiated at the value 100. -/
theorem c1_witness :
    (0 ≤ (100 : ℚ) ∧ (100 : ℚ) ≤ 100) ∧
    (StockData.calculate_rsi asc15 14).get? 13 = some (FV.fin 100) :=
  ⟨(c1_rsi_bounds asc15 13).1 100
    (by norm_num [asc15, StockData.calculate_rsi, StockData.rs_series,
      StockData.rollingMean, StockData.gainFill, StockData.lossFill,
      StockData.deltaList, List.range_succ, FV.ofOpt, FV.fadd, FV.fdiv, FV.fsub]),
   (c1_rsi_bounds asc15 13).2 (13 / 14)
    (by norm_num [asc15, StockData.rollingMean, StockData.lossFill,
      StockData.deltaList, List.range_succ])
    (by norm_num [asc15, StockData.rollingMean, StockData.gainFill,
      StockData.deltaList, List.range_succ])
    (by norm_num)⟩

theorem length_deltaList (closes : List ℚ) :
    (StockData.deltaList closes).length = closes.length := by
  cases closes with
  | nil => rfl
  | cons a t =>
      simp [StockData.deltaList, List.length_zipWith]

theorem length_gainFill (closes : List ℚ) :
    (StockData.gainFill closes).length = closes.length := by
  simp [StockData.gainFill, length_deltaList]

theorem length_lossFill (closes : List ℚ) :
    (StockData.lossFill closes).length = closes.length := by
  simp [StockData.lossFill, length_deltaList]

/-- C2 counterexample: at the alternating 14-bar close series, the RSI
value at index 13 — one of the "first 14 bars" — is the defined finite
value `700/13`, not NaN: the `where`-fill turns the initial NaN delta into
a zero, so the rolling windows are already complete at index 13. -/
theorem c2_counterexample :
    (StockData.calculate_rsi updown14 14).get? 13 ≠ some FV.nan ∧
    (StockData.calculate_rsi updown14 14).get? 13 = some (FV.fin (700 / 13)) := by
  have h : (StockData.calculate_rsi updown14 14).get? 13 = some (FV.fin (700 / 13)) := by
    norm_num [updown14, StockData.calculate_rsi, StockData.rs_series,
      StockData.rollingMean, StockData.gainFill, StockData.lossFill,
      StockData.deltaList, List.range_succ, FV.ofOpt, FV.fadd, FV.fdiv, FV.fsub]
  refine ⟨?_, h⟩
  rw [h]
  simp

/-- C2 (amended): the RSI series is NaN at indices 0 through 12 only (the
rolling windows fill from index 13 on, because the initial NaN delta is
replaced by 0); and the zero-average-loss/positive-gain case produces
RSI = 100 through the ordinary IEEE division itself — the intermediate
`rs` is `+∞` — with no special-case branch in the code. -/
theorem c2_rsi_initial_window (closes : List ℚ) (i : ℕ) :
    (i ≤ 12 → i < closes.length →
      (StockData.calculate_rsi closes 14).get? i = some FV.nan) ∧
    (∀ g, (StockData.rollingMean 14 (StockData.lossFill closes)).get? i = some (some 0) →
      (StockData.rollingMean 14 (StockData.gainFill closes)).get? i = some (some g) →
      0 < g →
      (StockData.rs_series closes 14).get? i = some FV.pinf ∧
      (StockData.calculate_rsi closes 14).get? i = some (FV.fin 100)) := by
  constructor
  · intro h12 hi
    have hg : (StockData.rollingMean 14 (StockData.gainFill closes)).get? i =
        some none := by
      rw [rollingMean_get? 14 _ i (by rw [length_gainFill]; exact hi),
        if_pos (by omega)]
    have hl : (StockData.rollingMean 14 (StockData.lossFill closes)).get? i =
        some none := by
      rw [rollingMean_get? 14 _ i (by rw [length_lossFill]; exact hi),
        if_pos (by omega)]
    unfold StockData.calculate_rsi
    rw [List.get?_map, rs_series_get?, hg, hl]
    rfl
  · intro g hL hG hg
    exact rsi_zero_loss_aux closes i g hL hG hg

/-- C2 witness: at the ascending 15-bar series, index 5 is NaN (inside the
initial window), and at index 13 the average loss is 0 with average gain
`13/14 > 0`, RS is `+∞` and RSI is 100. -/
theorem c2_witness :
    ((5 : ℕ) ≤ 12 ∧ 5 < asc15.length ∧
      (StockData.calculate_rsi asc15 14).get? 5 = some FV.nan) ∧
    ((StockData.rollingMean 14 (StockData.lossFill asc15)).get? 13 = some (some 0) ∧
     (StockData.rollingMean 14 (StockData.gainFill asc15)).get? 13 =
       some (some (13 / 14)) ∧
     (StockData.rs_series asc15 14).get? 13 = some FV.pinf ∧
     (StockData.calculate_rsi asc15 14).get? 13 = some (FV.fin 100)) := by
  have hL : (StockData.rollingMean 14 (StockData.lossFill asc15)).get? 13 =
      some (some 0) := by
    norm_num [asc15, StockData.rollingMean, StockData.lossFill,
      StockData.deltaList, List.range_succ]
  have hG : (StockData.rollingMean 14 (StockData.gainFill asc15)).get? 13 =
      some (some (13 / 14)) := by
    norm_num [asc15, StockData.rollingMean, StockData.gainFill,
      StockData.deltaList, List.range_succ]
  exact ⟨⟨by norm_num, by norm_num [asc15],
      (c2_rsi_initial_window asc15 5).1 (by norm_num) (by norm_num [asc15])⟩,
    hL, hG, (c2_rsi_initial_window asc15 13).2 (13 / 14) hL hG (by norm_num)⟩

/-- C5: on the 21-row close series rising linearly from 10.00 to 30.00,
the final bar satisfies MA3 > MA5 > MA8 > MA13 > MA21 (so the alignment
branch classifies it bullish), the final RSI value exceeds 50, and the
fifth (5-day-ahead) `predict_ma` value for MA13 strictly exceeds the
current MA13. -/
theorem c5_linear_scenario :
    (∃ m3 m5 m8 m13 m21 : ℚ,
      (StockData.rollingMean 3 lin21).get? 20 = some (some m3) ∧
      (StockData.rollingMean 5 lin21).get? 20 = some (some m5) ∧
      (StockData.rollingMean 8 lin21).get? 20 = some (some m8) ∧
      (StockData.rollingMean 13 lin21).get? 20 = some (some m13) ∧
      (StockData.rollingMean 21 lin21).get? 20 = some (some m21) ∧
      m3 > m5 ∧ m5 > m8 ∧ m8 > m13 ∧ m13 > m21 ∧
      StockData.ma_alignment m3 m5 m8 m13 m21 = StockData.Alignment.bullish) ∧
    (∃ r, (StockData.calculate_rsi lin21 14).get? 20 = some (FV.fin r) ∧ 50 < r) ∧
    (∃ p m13c, (StockData.predict_ma lin21 13 5).get? 4 = some p ∧
      (StockData.rollingMean 13 lin21).get? 20 = some (some m13c) ∧ m13c < p) := by
  have hma3 : (StockData.rollingMean 3 lin21).get? 20 = some (some 29) := by
    norm_num [lin21, StockData.rollingMean, List.range_succ]
  have hma5 : (StockData.rollingMean 5 lin21).get? 20 = some (some 28) := by
    norm_num [lin21, StockData.rollingMean, List.range_succ]
  have hma8 : (StockData.rollingMean 8 lin21).get? 20 = some (some (53 / 2)) := by
    norm_num [lin21, StockData.rollingMean, List.range_succ]
  have hma13 : (StockData.rollingMean 13 lin21).get? 20 = some (some 24) := by
    norm_num [lin21, StockData.rollingMean, List.range_succ]
  have hma21 : (StockData.rollingMean 21 lin21).get? 20 = some (some 20) := by
    norm_num [lin21, StockData.rollingMean, List.range_succ]
  have hrsi : (StockData.calculate_rsi lin21 14).get? 20 = some (FV.fin 100) := by
    norm_num [lin21, StockData.calculate_rsi, StockData.rs_series,
      StockData.rollingMean, StockData.gainFill, StockData.lossFill,
      StockData.deltaList, List.range_succ, FV.ofOpt, FV.fadd, FV.fdiv, FV.fsub]
  have hpred : StockData.predict_ma lin21 13 5 = [25, 26, 27, 28, 29] := by
    norm_num [lin21, StockData.predict_ma, StockData.polyfit1, StockData.predictLoop,
      StockData.tailSlice, List.range_succ]
  refine ⟨⟨29, 28, 53 / 2, 24, 20, hma3, hma5, hma8, hma13, hma21,
      by norm_num, by norm_num, by norm_num, by norm_num, ?_⟩,
    ⟨100, hrsi, by norm_num⟩,
    ⟨29, 24, by rw [hpred]; rfl, hma13, by norm_num⟩⟩
  rw [StockData.ma_alignment, if_pos (by norm_num)]

/-! Lemmas for the recommendation logic. -/

theorem trend_signals_length (ma5 ma13 rsi macd sig price bbmid : ℚ) :
    (StockData.trend_signals ma5 ma13 rsi macd sig price bbmid).length =
      StockData.bullishTally ma5 ma13 rsi macd sig price bbmid := by
  unfold StockData.trend_signals StockData.bullishTally
  split_ifs <;> simp

theorem risks_list_length (rsi price bbup vol avgvol : ℚ) (turnover : Option ℚ) :
    (StockData.risks_list rsi price bbup vol avgvol turnover).length =
      StockData.riskTally rsi price bbup vol avgvol turnover := by
  unfold StockData.risks_list StockData.riskTally
  cases turnover <;> split_ifs <;> simp
  all_goals split <;> simp

/-- C6: the renderer's final recommendation is exactly the threshold
function of the two tallies: at least 3 bullish signals with an empty risk
list gives the buy-on-dips advice, otherwise at least 2 risks gives the
caution advice, otherwise the wait advice. -/
theorem c6_recommendation_from_tallies
    (ma5 ma13 rsi macd sig price bbmid bbup vol avgvol : ℚ) (turnover : Option ℚ) :
    StockData.operation_advice
        (StockData.trend_signals ma5 ma13 rsi macd sig price bbmid)
        (StockData.risks_list rsi price bbup vol avgvol turnover) =
      StockData.recommendationOfTallies
        (StockData.bullishTally ma5 ma13 rsi macd sig price bbmid)
        (StockData.riskTally rsi price bbup vol avgvol turnover) := by
  unfold StockData.operation_advice StockData.recommendationOfTallies
  have he : (StockData.risks_list rsi price bbup vol avgvol turnover = []) ↔
      (StockData.riskTally rsi price bbup vol avgvol turnover = 0) := by
    rw [← risks_list_length]
    exact List.length_eq_zero.symm
  rw [trend_signals_length, risks_list_length]
  exact if_congr (and_congr Iff.rfl he) rfl rfl

/-! Lemmas for `get_next_trading_dates`. -/

theorem nextTradingAux_eq (fuel : ℕ) : ∀ (d num : ℕ) (acc : List ℕ),
    StockData.nextTradingAux fuel d num acc =
      acc.reverse ++
        (((List.range' (d + 1) fuel).filter StockData.isTradingDay).take
          (num - acc.length)) := by
  induction fuel with
  | zero => intro d num acc; simp [StockData.nextTradingAux]
  | succ f ih =>
      intro d num acc
      unfold StockData.nextTradingAux
      by_cases hle : num ≤ acc.length
      · rw [if_pos hle]
        have h0 : num - acc.length = 0 := by omega
        simp [h0]
      · rw [if_neg hle]
        have hrange : List.range' (d + 1) (f + 1) = (d + 1) :: List.range' (d + 2) f := by
          rfl
        rw [hrange]
        by_cases hw : StockData.isTradingDay (d + 1) = true
        · rw [if_pos hw, ih (d + 1) num ((d + 1) :: acc)]
          rw [List.filter_cons, if_pos hw]
          have hsucc : num - acc.length = (num - (acc.length + 1)) + 1 := by omega
          rw [hsucc, List.take_succ_cons]
          simp
        · have hwf : StockData.isTradingDay (d + 1) = false := by simpa using hw
          rw [if_neg (by simp [hwf]), ih (d + 1) num acc]
          rw [List.filter_cons, if_neg (by simp [hwf])]

theorem filter_trading_week (a : ℕ) :
    ((List.range' a 7).filter StockData.isTradingDay).length = 5 := by
  induction a with
  | zero => decide
  | succ n ih =>
      have h1 : List.range' n 8 = n :: List.range' (n + 1) 7 := rfl
      have h2 : List.range' n 7 ++ [n + 7] = List.range' n 8 := by
        have h := List.range'_append n 7 1 1
        simpa using h
      have e : List.filter StockData.isTradingDay (n :: List.range' (n + 1) 7) =
          List.filter StockData.isTradingDay (List.range' n 7 ++ [n + 7]) := by
        rw [h2, ← h1]
      have e2 := congrArg List.length e
      rw [List.filter_cons, List.filter_append, List.length_append] at e2
      have hmod : StockData.isTradingDay (n + 7) = StockData.isTradingDay n := by
        simp [StockData.isTradingDay, Nat.add_mod_right]
      rw [ih] at e2
      cases hfn : StockData.isTradingDay n <;>
        simp [hfn, hmod, List.filter_cons] at e2 <;> omega

theorem filter_trading_chunks (k : ℕ) : ∀ a : ℕ,
    ((List.range' a (7 * k + 7)).filter StockData.isTradingDay).length = 5 * k + 5 := by
  induction k with
  | zero => intro a; simpa using filter_trading_week a
  | succ k ih =>
      intro a
      have hsplit : List.range' a (7 * (k + 1) + 7) =
          List.range' a 7 ++ List.range' (a + 7) (7 * k + 7) := by
        have h := List.range'_append a 7 (7 * k + 7) 1
        rw [show a + 1 * 7 = a + 7 by ring] at h
        rw [show 7 * (k + 1) + 7 = 7 * k + 7 + 7 by ring, ← h]
      rw [hsplit, List.filter_append, List.length_append, filter_trading_week, ih]
      ring

/-- C8: for every starting day and every requested count,
`get_next_trading_dates` returns exactly `num` dates, strictly increasing,
all after the start and none on a Saturday or Sunday, and the result is
exactly the first `num` weekdays after the start (the fuel window of
`7 num + 7` days is proved to contain at least `num` weekdays). -/
theorem c8_next_trading_dates (last num : ℕ) :
    (StockData.get_next_trading_dates last num).length = num ∧
    List.Pairwise (fun a b => a < b) (StockData.get_next_trading_dates last num) ∧
    (∀ d ∈ StockData.get_next_trading_dates last num, last < d ∧ d % 7 < 5) ∧
    StockData.get_next_trading_dates last num =
      ((List.range' (last + 1) (7 * num + 7)).filter StockData.isTradingDay).take num ∧
    num ≤ ((List.range' (last + 1) (7 * num + 7)).filter StockData.isTradingDay).length := by
  have hchar : StockData.get_next_trading_dates last num =
      ((List.range' (last + 1) (7 * num + 7)).filter StockData.isTradingDay).take num := by
    unfold StockData.get_next_trading_dates
    rw [nextTradingAux_eq]
    simp
  have hcount : ((List.range' (last + 1) (7 * num + 7)).filter
      StockData.isTradingDay).length = 5 * num + 5 := filter_trading_chunks num (last + 1)
  refine ⟨?_, ?_, ?_, hchar, by rw [hcount]; omega⟩
  · rw [hchar, List.length_take, hcount]
    exact min_eq_left (by omega)
  · rw [hchar]
    exact List.Pairwise.sublist (List.take_sublist _ _)
      (List.Pairwise.filter _ (List.pairwise_lt_range' _ _ 1))
  · intro d hd
    rw [hchar] at hd
    have hmem := List.mem_filter.mp (List.mem_of_mem_take hd)
    constructor
    · have h := List.mem_range'_1.mp hmem.1
      omega
    · have h := hmem.2
      simpa [StockData.isTradingDay] using h

/-- C7: `analyze_stock_data` never propagates an exception — every fetch
outcome, including a raised exception, yields a normal `.ok` result — and
an absent or empty fetched series produces exactly the pre-fetch note plus
one data-unavailable diagnostic, with no indicator sections. -/
theorem c7_error_handling :
    (∀ f, ∃ outs, StockData.analyze_stock_data f = Except.ok outs) ∧
    StockData.analyze_stock_data (Except.ok none) =
      Except.ok [StockData.ROut.fetchingNote, StockData.ROut.dataUnavailable] ∧
    StockData.analyze_stock_data (Except.ok (some [])) =
      Except.ok [StockData.ROut.fetchingNote, StockData.ROut.dataUnavailable] ∧
    ([StockData.ROut.fetchingNote, StockData.ROut.dataUnavailable].filter
      StockData.isIndicatorSection) = [] ∧
    ([StockData.ROut.fetchingNote, StockData.ROut.dataUnavailable].count
      StockData.ROut.dataUnavailable) = 1 ∧
    (∀ e, StockData.analyze_stock_data (Except.error e) =
      Except.ok [StockData.ROut.fetchingNote, StockData.ROut.errorDiag,
        StockData.ROut.errorAdvice]) := by
  refine ⟨?_, rfl, rfl, by decide, by decide, fun e => rfl⟩
  intro f
  rcases f with e | o
  · exact ⟨_, rfl⟩
  rcases o with _ | bars
  · exact ⟨_, rfl⟩
  rcases bars with _ | ⟨b, t⟩
  · exact ⟨_, rfl⟩
  · exact ⟨_, rfl⟩

/-! Lemmas for the Bollinger divisor. -/

theorem rollingVar_get? (w : ℕ) (xs : List ℚ) (i : ℕ) (hi : i < xs.length) :
    (StockData.rollingVar w xs).get? i =
      some (if i + 1 < w then none
            else some ((((xs.drop (i + 1 - w)).take w).map
                (fun x => (x - ((xs.drop (i + 1 - w)).take w).sum / (w : ℚ)) ^ 2)).sum /
              ((w : ℚ) - 1))) := by
  unfold StockData.rollingVar
  rw [List.get?_map, List.get?_range (by simpa using hi)]
  rfl

theorem sq_dev_sum_pos (win : List ℚ) (m : ℚ) (a b : ℚ)
    (ha : a ∈ win) (hb : b ∈ win) (hab : a ≠ b) :
    0 < (win.map (fun x => (x - m) ^ 2)).sum := by
  have hnn : ∀ y ∈ win.map (fun x => (x - m) ^ 2), 0 ≤ y := by
    rintro y hy
    obtain ⟨x, _, rfl⟩ := List.mem_map.mp hy
    positivity
  rcases ne_or_eq a m with ham | ham
  · have hx : (a - m) ^ 2 ∈ win.map (fun x => (x - m) ^ 2) :=
      List.mem_map_of_mem _ ha
    have hne : a - m ≠ 0 := sub_ne_zero.mpr ham
    have hpos : 0 < (a - m) ^ 2 := by positivity
    exact lt_of_lt_of_le hpos (List.single_le_sum hnn _ hx)
  · have hbm : b - m ≠ 0 := sub_ne_zero.mpr (fun he => hab (by rw [ham, he]))
    have hx : (b - m) ^ 2 ∈ win.map (fun x => (x - m) ^ 2) :=
      List.mem_map_of_mem _ hb
    have hpos : 0 < (b - m) ^ 2 := by positivity
    exact lt_of_lt_of_le hpos (List.single_le_sum hnn _ hx)

/-- C10: at any bar with at least 20 bars of history whose trailing-20
window is not all equal, the Bollinger band-position divisor
`BB_Upper - BB_Lower` is defined, equals 4 times the (exact) sample
standard deviation of the window, and is nonzero; when the window is all
equal the divisor is 0 — the code has no guard for that case. -/
theorem c10_bollinger_divisor (closes : List ℚ) (i : ℕ)
    (hi : i < closes.length) (hw : 19 ≤ i) :
    (∀ a b, a ∈ (closes.drop (i + 1 - 20)).take 20 →
      b ∈ (closes.drop (i + 1 - 20)).take 20 → a ≠ b →
      ∃ u lo v, StockData.bbUpperAt closes i = some u ∧
        StockData.bbLowerAt closes i = some lo ∧
        StockData.varAt closes i = some v ∧ 0 < v ∧
        u - lo = 4 * Real.sqrt (v : ℝ) ∧ u - lo ≠ 0) ∧
    (∀ c, (∀ x ∈ (closes.drop (i + 1 - 20)).take 20, x = c) →
      ∃ u lo, StockData.bbUpperAt closes i = some u ∧
        StockData.bbLowerAt closes i = some lo ∧ u - lo = 0) := by
  have hnlt : ¬ i + 1 < 20 := by omega
  have hvar : StockData.varAt closes i =
      some ((((closes.drop (i + 1 - 20)).take 20).map
          (fun x => (x - ((closes.drop (i + 1 - 20)).take 20).sum / (20 : ℚ)) ^ 2)).sum /
        ((20 : ℚ) - 1)) := by
    unfold StockData.varAt
    rw [rollingVar_get? 20 closes i hi, if_neg hnlt]
    rfl
  have hsma : StockData.smaAt closes i =
      some (((closes.drop (i + 1 - 20)).take 20).sum / (20 : ℚ)) := by
    unfold StockData.smaAt
    rw [rollingMean_get? 20 closes i hi, if_neg hnlt]
    rfl
  have hlen : ((closes.drop (i + 1 - 20)).take 20).length = 20 := by
    rw [List.length_take, List.length_drop]
    omega
  constructor
  · intro a b ha hb hab
    set m := ((closes.drop (i + 1 - 20)).take 20).sum / (20 : ℚ) with hm
    set v := ((((closes.drop (i + 1 - 20)).take 20).map
        (fun x => (x - m) ^ 2)).sum / ((20 : ℚ) - 1)) with hv
    have hvpos : 0 < v := by
      rw [hv]
      apply div_pos (sq_dev_sum_pos _ m a b ha hb hab)
      norm_num
    refine ⟨(m : ℝ) + Real.sqrt (v : ℝ) * 2, (m : ℝ) - Real.sqrt (v : ℝ) * 2, v,
      ?_, ?_, hvar, hvpos, by ring, ?_⟩
    · unfold StockData.bbUpperAt
      rw [hsma, hvar]
    · unfold StockData.bbLowerAt
      rw [hsma, hvar]
    · have hs : 0 < Real.sqrt (v : ℝ) :=
        Real.sqrt_pos.mpr (by exact_mod_cast hvpos)
      have : (0 : ℝ) < 4 * Real.sqrt (v : ℝ) := by linarith
      intro hzero
      rw [show (m : ℝ) + Real.sqrt (v : ℝ) * 2 - ((m : ℝ) - Real.sqrt (v : ℝ) * 2) =
        4 * Real.sqrt (v : ℝ) from by ring] at hzero
      linarith [hzero ▸ this]
  · intro c hall
    set win := (closes.drop (i + 1 - 20)).take 20 with hwin
    have hsum : win.sum = win.length • c := List.sum_eq_card_nsmul win c hall
    have hmean : win.sum / (20 : ℚ) = c := by
      rw [hsum, hlen]
      simp
    have hzero : (win.map (fun x => (x - win.sum / (20 : ℚ)) ^ 2)).sum = 0 := by
      apply List.sum_eq_zero
      intro y hy
      obtain ⟨x, hx, rfl⟩ := List.mem_map.mp hy
      rw [hmean, hall x hx]
      ring
    have hv0 : StockData.varAt closes i = some 0 := by
      rw [hvar]
      congr 1
      rw [hzero]
      norm_num
    refine ⟨(win.sum / (20 : ℚ) : ℚ) + Real.sqrt ((0 : ℚ) : ℝ) * 2,
      (win.sum / (20 : ℚ) : ℚ) - Real.sqrt ((0 : ℚ) : ℝ) * 2, ?_, ?_,
      by rw [show ((0 : ℚ) : ℝ) = 0 from by norm_num, Real.sqrt_zero]; ring⟩
    · unfold StockData.bbUpperAt
      rw [hsma, hv0]
    · unfold StockData.bbLowerAt
      rw [hsma, hv0]

/-- C10 witness: the theorem at a 20-bar series of nineteen 1s and one 2,
at the last index, with the unequal pair (1, 2). -/
theorem c10_witness :
    (19 < spike20.length ∧ 19 ≤ 19) ∧
    ∃ u lo v, StockData.bbUpperAt spike20 19 = some u ∧
      StockData.bbLowerAt spike20 19 = some lo ∧
      StockData.varAt spike20 19 = some v ∧ 0 < v ∧
      u - lo = 4 * Real.sqrt (v : ℝ) ∧ u - lo ≠ 0 :=
  ⟨⟨by norm_num [spike20], le_refl 19⟩,
   (c10_bollinger_divisor spike20 19 (by norm_num [spike20]) (le_refl 19)).1 1 2
     (by norm_num [spike20]) (by norm_num [spike20]) (by norm_num)⟩
